import Mathlib

/-!
# Removarr — verification of the reconciliation / eligibility / deletion core

A shallow embedding of the Go services in `internal/services` and
`internal/integrations` of the removarr repository, together with theorems
about them.

Modelling conventions:

* The relational store (tables `media_items`, `torrents`, `audit_logs`) is a
  `Store` of lists of row records, in table order; a `SELECT ... LIMIT 1`
  without `ORDER BY` is modelled as the first matching row in table order,
  and SQL `UPDATE ... WHERE` as a map over the rows.  Database statements
  themselves are modelled as reliable (the Go code logs and skips statement
  errors; those branches are not the subject of any claim).
* Nullable SQL columns / Go pointer fields become `Option`.
* `int`/`int64` become `Int`; timestamps become `Int` (`Time`); `float64`
  ratios become `Rat` (the code only compares them with `<`).
* Go `error` results of external calls become `Option String`
  (`none` = success, `some msg` = failure with message `msg`), supplied by
  an environment record so that theorems quantify over all outcomes.
* SQL `LIKE p || '%'` on path columns is modelled as a string prefix test and
  `LIKE '%' || p || '%'` as a substring test: the code always builds the
  pattern from a data value used literally, with the wildcards only at the
  positions shown.
-/

namespace Removarr

/-- Timestamps (an abstract instant; the Go zero `time.Time` is `timeZero`). -/
abbrev Time := Int

/-- The Go zero value of `time.Time`, stored when a timestamp fails to parse. -/
def timeZero : Time := 0

/-! ## Rows of the relational store (migrations/000001_initial.up.sql) -/

/-- One row of `media_items`. -/
structure MediaRow where
  id : Int
  title : String
  type : String
  tmdbID : Option Int
  tvdbID : Option Int
  sonarrID : Option Int
  radarrID : Option Int
  overseerrRequestID : Option Int
  requestedByUserID : Option Int
  filePath : Option String
  fileSize : Option Int
  addedDate : Option Time
  lastSyncedAt : Option Time
deriving DecidableEq, Repr

/-- One row of `torrents`. -/
structure TorrentRow where
  mediaItemID : Option Int
  hash : String
  trackerID : Option Int
  trackerName : Option String
  trackerType : Option String
  addedDate : Option Time
  seedingTime : Int
  uploadBytes : Int
  downloadBytes : Int
  ratio : Rat
  requiredTime : Option Int
  requiredRatio : Option Rat
  isSeeding : Bool
  lastSyncedAt : Option Time
deriving DecidableEq, Repr

/-- One row of `audit_logs`. -/
structure AuditRow where
  userID : Int
  action : String
  mediaItemID : Option Int
  mediaTitle : String
  mediaType : String
  details : String
deriving DecidableEq, Repr

/-- The relational store.  `nextMediaID` models the `SERIAL` id column of
`media_items` (fresh ids for inserted rows). -/
structure Store where
  mediaItems : List MediaRow
  torrents : List TorrentRow
  auditLogs : List AuditRow
  nextMediaID : Int
deriving DecidableEq, Repr

/-! ## Eligibility engine (`EligibilityService`, services/eligibility) -/

/-- The projection of a torrent row consumed by `checkTorrentEligibility`
(the anonymous struct built inside `CheckEligibility`). -/
structure EligTorrent where
  hash : String
  trackerID : Option Int
  trackerName : Option String
  trackerType : Option String
  seedingTime : Int
  ratio : Rat
  requiredTime : Option Int
  requiredRatio : Option Rat
  isSeeding : Bool
deriving DecidableEq, Repr

/-- Project a `torrents` row to the fields the eligibility check reads. -/
def TorrentRow.toElig (t : TorrentRow) : EligTorrent :=
  { hash := t.hash
    trackerID := t.trackerID
    trackerName := t.trackerName
    trackerType := t.trackerType
    seedingTime := t.seedingTime
    ratio := t.ratio
    requiredTime := t.requiredTime
    requiredRatio := t.requiredRatio
    isSeeding := t.isSeeding }

/-- The result record of `CheckEligibility` (`EligibilityStatus`); Go zero
values as defaults, as in `&EligibilityStatus{IsEligible: false}`. -/
structure EligibilityStatus where
  isEligible : Bool := false
  reason : String := ""
  seedingTime : Int := 0
  requiredTime : Option Int := none
  seedingRatio : Rat := 0
  requiredRatio : Option Rat := none
  trackerType : String := ""
  isSeeding : Bool := false
deriving DecidableEq, Repr

/-- The unmet-seeding-time failure of the per-torrent check, if any
(`torrent.SeedingTime < *torrent.RequiredTime` with its message). -/
def timeShortfall (t : EligTorrent) : Option String :=
  match t.requiredTime with
  | some rt =>
    if t.seedingTime < rt then
      some ("Seeding time " ++ toString t.seedingTime ++ "s < required " ++ toString rt ++ "s")
    else none
  | none => none

/-- The unmet-ratio failure of the per-torrent check, if any
(`torrent.Ratio < *torrent.RequiredRatio` with its message). -/
def ratioShortfall (t : EligTorrent) : Option String :=
  match t.requiredRatio with
  | some rr =>
    if t.ratio < rr then
      some ("Ratio " ++ toString t.ratio ++ " < required " ++ toString rr)
    else none
  | none => none

/-- `checkTorrentEligibility`: the per-torrent deletion-eligibility check.
Public trackers are eligible unless an override requirement is unmet; private
(or unresolved) trackers must have a finite required time, meet both present
thresholds, and still be seeding. -/
def checkTorrentEligibility (t : EligTorrent) : Bool × String :=
  if t.trackerType = some "public" then
    if t.requiredTime.isSome || t.requiredRatio.isSome then
      match timeShortfall t with
      | some msg => (false, msg)
      | none =>
        match ratioShortfall t with
        | some msg => (false, msg)
        | none => (true, "Public tracker - eligible")
    else (true, "Public tracker - eligible")
  else
    match t.requiredTime with
    | none => (false, "Infinite seeding time required")
    | some rt =>
      if t.seedingTime < rt then
        (false, "Seeding time " ++ toString t.seedingTime ++ "s < required " ++ toString rt ++ "s")
      else
        match ratioShortfall t with
        | some msg => (false, msg)
        | none =>
          if !t.isSeeding then (false, "Torrent is not currently seeding")
          else (true, "All requirements met")

/-- The `torrents` rows linked to a media item
(`SELECT ... FROM torrents WHERE media_item_id = $1`). -/
def linkedTorrents (torrents : List TorrentRow) (mediaItemID : Int) : List TorrentRow :=
  torrents.filter fun t => t.mediaItemID == some mediaItemID

/-- `CheckEligibility`: load the media item and its linked torrents; no
torrents is an observation (not an error); otherwise every torrent must pass
`checkTorrentEligibility`, stopping at the first failure, whose reason is
surfaced; the first torrent's raw stats fill the summary fields. -/
def CheckEligibility (items : List MediaRow) (torrents : List TorrentRow)
    (mediaItemID : Int) : Except String EligibilityStatus :=
  match items.find? (fun m => m.id == mediaItemID) with
  | none => .error "media item not found"
  | some _ =>
    let ts := (linkedTorrents torrents mediaItemID).map TorrentRow.toElig
    match ts with
    | [] => .ok { isEligible := false, reason := "No torrents found for this media item" }
    | t0 :: _ =>
      let firstFail := ts.find? fun t => !(checkTorrentEligibility t).1
      let elig := firstFail.isNone
      let reason :=
        match firstFail with
        | some t => (checkTorrentEligibility t).2
        | none => "All seeding requirements met"
      .ok { isEligible := elig
            reason := reason
            seedingTime := t0.seedingTime
            requiredTime := t0.requiredTime
            seedingRatio := t0.ratio
            requiredRatio := t0.requiredRatio
            trackerType := t0.trackerType.getD "unknown"
            isSeeding := t0.isSeeding }

/-! ### Example rows used by witness theorems -/

/-- A media-items row for witnesses: a movie with id 1 and every linkage set. -/
def exMovieRow : MediaRow :=
  { id := 1, title := "Example Movie", type := "movie"
    tmdbID := some 42, tvdbID := none, sonarrID := none, radarrID := some 7
    overseerrRequestID := some 9, requestedByUserID := some 3
    filePath := some "/data/movies/Example", fileSize := some 1000
    addedDate := some 5, lastSyncedAt := some 6 }

/-- A torrents row for witnesses: linked to media item 1, private tracker,
no required seeding time. -/
def exPrivateNoReqTorrent : TorrentRow :=
  { mediaItemID := some 1, hash := "aaa1"
    trackerID := some 2, trackerName := some "PrivTracker", trackerType := some "private"
    addedDate := some 4, seedingTime := 9999, uploadBytes := 10, downloadBytes := 10
    ratio := 3, requiredTime := none, requiredRatio := none
    isSeeding := true, lastSyncedAt := some 6 }

/-- A torrents row for witnesses: private tracker, thresholds met, not seeding. -/
def exNotSeedingTorrent : TorrentRow :=
  { mediaItemID := some 1, hash := "bbb2"
    trackerID := some 2, trackerName := some "PrivTracker", trackerType := some "private"
    addedDate := some 4, seedingTime := 7200, uploadBytes := 10, downloadBytes := 10
    ratio := 2, requiredTime := some 3600, requiredRatio := some 1
    isSeeding := false, lastSyncedAt := some 6 }

/-! ### C2 — all linked torrents must pass; first failure's reason wins -/

/-- C2: with at least one linked torrent, `CheckEligibility` succeeds and is
eligible iff every linked torrent passes the per-torrent check; when some
torrent fails, the surfaced reason is the first failing torrent's reason in
scan order. -/
theorem checkEligibility_all_torrents_must_pass
    (items : List MediaRow) (torrents : List TorrentRow) (mid : Int) (item : MediaRow)
    (hfind : items.find? (fun m => m.id == mid) = some item)
    (hne : linkedTorrents torrents mid ≠ []) :
    ∃ st, CheckEligibility items torrents mid = .ok st ∧
      (st.isEligible = true ↔
        ∀ t ∈ (linkedTorrents torrents mid).map TorrentRow.toElig,
          (checkTorrentEligibility t).1 = true) ∧
      (∀ t₀, ((linkedTorrents torrents mid).map TorrentRow.toElig).find?
          (fun t => !(checkTorrentEligibility t).1) = some t₀ →
        st.isEligible = false ∧ st.reason = (checkTorrentEligibility t₀).2) := by
  unfold CheckEligibility
  rw [hfind]
  cases hl : (linkedTorrents torrents mid).map TorrentRow.toElig with
  | nil =>
    exact absurd (List.map_eq_nil_iff.mp hl) hne
  | cons t0 rest =>
    refine ⟨_, rfl, ?_, ?_⟩
    · show (List.find? (fun t => !(checkTorrentEligibility t).1) (t0 :: rest)).isNone = true ↔
        ∀ t ∈ t0 :: rest, (checkTorrentEligibility t).1 = true
      rw [Option.isNone_iff_eq_none, List.find?_eq_none]
      constructor
      · intro h t ht
        simpa using h t ht
      · intro h t ht
        simp [h t ht]
    · intro t₀ hfail
      refine ⟨?_, ?_⟩ <;> simp [hfail]

/-- C2 witness: a single failing linked torrent (private, no required time)
instantiates the theorem. -/
theorem checkEligibility_all_torrents_must_pass_witness :
    ([exMovieRow].find? (fun m => m.id == 1) = some exMovieRow) ∧
    (linkedTorrents [exPrivateNoReqTorrent] 1 ≠ []) ∧
    ∃ st, CheckEligibility [exMovieRow] [exPrivateNoReqTorrent] 1 = .ok st ∧
      (st.isEligible = true ↔
        ∀ t ∈ (linkedTorrents [exPrivateNoReqTorrent] 1).map TorrentRow.toElig,
          (checkTorrentEligibility t).1 = true) ∧
      (∀ t₀, ((linkedTorrents [exPrivateNoReqTorrent] 1).map TorrentRow.toElig).find?
          (fun t => !(checkTorrentEligibility t).1) = some t₀ →
        st.isEligible = false ∧ st.reason = (checkTorrentEligibility t₀).2) :=
  ⟨by decide, by decide,
    checkEligibility_all_torrents_must_pass [exMovieRow] [exPrivateNoReqTorrent] 1 exMovieRow
      (by decide) (by decide)⟩

/-! ### C4 — private/unresolved tracker with no required time fails as infinite -/

/-- C4: a torrent on a private (or unresolved) tracker with no required
seeding time fails the per-torrent check with the infinite-seeding-time
reason, whatever its stats, and an item linked to such a torrent is not
eligible. -/
theorem private_no_required_time_not_eligible
    (items : List MediaRow) (torrents : List TorrentRow) (mid : Int)
    (item : MediaRow) (r : TorrentRow)
    (hfind : items.find? (fun m => m.id == mid) = some item)
    (hmem : r ∈ linkedTorrents torrents mid)
    (hty : r.trackerType = some "private" ∨ r.trackerType = none)
    (hrt : r.requiredTime = none) :
    checkTorrentEligibility r.toElig = (false, "Infinite seeding time required") ∧
    ∃ st, CheckEligibility items torrents mid = .ok st ∧ st.isEligible = false := by
  have hcheck : checkTorrentEligibility r.toElig = (false, "Infinite seeding time required") := by
    have hty' : r.toElig.trackerType ≠ some "public" := by
      rcases hty with h | h <;> simp [TorrentRow.toElig, h]
    have hrt' : r.toElig.requiredTime = none := by simp [TorrentRow.toElig, hrt]
    rw [checkTorrentEligibility, if_neg hty', hrt']
  refine ⟨hcheck, ?_⟩
  have hne : linkedTorrents torrents mid ≠ [] := by
    intro h
    rw [h] at hmem
    exact absurd hmem (List.not_mem_nil r)
  obtain ⟨st, hok, hiff, -⟩ :=
    checkEligibility_all_torrents_must_pass items torrents mid item hfind hne
  refine ⟨st, hok, ?_⟩
  rcases hb : st.isEligible with _ | _
  · rfl
  · exfalso
    have := hiff.mp hb (r.toElig) (List.mem_map_of_mem TorrentRow.toElig hmem)
    rw [hcheck] at this
    exact Bool.false_ne_true this

/-- C4 witness: the private no-required-time torrent of the examples. -/
theorem private_no_required_time_not_eligible_witness :
    ([exMovieRow].find? (fun m => m.id == 1) = some exMovieRow) ∧
    (exPrivateNoReqTorrent ∈ linkedTorrents [exPrivateNoReqTorrent] 1) ∧
    checkTorrentEligibility exPrivateNoReqTorrent.toElig =
      (false, "Infinite seeding time required") ∧
    ∃ st, CheckEligibility [exMovieRow] [exPrivateNoReqTorrent] 1 = .ok st ∧
      st.isEligible = false :=
  ⟨by decide, by decide,
    private_no_required_time_not_eligible [exMovieRow] [exPrivateNoReqTorrent] 1
      exMovieRow exPrivateNoReqTorrent (by decide) (by decide) (by left; decide) (by decide)⟩

/-! ### C5 — on a private tracker, not seeding fails even with thresholds met -/

/-- C5: a private-tracker torrent whose present required-time and
required-ratio thresholds are met but which is not seeding fails the
per-torrent check with the not-currently-seeding reason, and an item linked
to such a torrent is not eligible. -/
theorem private_not_seeding_not_eligible
    (items : List MediaRow) (torrents : List TorrentRow) (mid : Int)
    (item : MediaRow) (r : TorrentRow) (rt : Int)
    (hfind : items.find? (fun m => m.id == mid) = some item)
    (hmem : r ∈ linkedTorrents torrents mid)
    (hty : r.trackerType = some "private")
    (hrt : r.requiredTime = some rt)
    (htime : rt ≤ r.seedingTime)
    (hratio : ∀ rr, r.requiredRatio = some rr → rr ≤ r.ratio)
    (hseed : r.isSeeding = false) :
    checkTorrentEligibility r.toElig = (false, "Torrent is not currently seeding") ∧
    ∃ st, CheckEligibility items torrents mid = .ok st ∧ st.isEligible = false := by
  have hcheck : checkTorrentEligibility r.toElig = (false, "Torrent is not currently seeding") := by
    have hty' : r.toElig.trackerType ≠ some "public" := by simp [TorrentRow.toElig, hty]
    have hrt' : r.toElig.requiredTime = some rt := by simp [TorrentRow.toElig, hrt]
    have hratio' : ratioShortfall r.toElig = none := by
      rw [ratioShortfall]
      cases hrr : r.toElig.requiredRatio with
      | none => rfl
      | some rr =>
        have : rr ≤ r.ratio := hratio rr (by simpa [TorrentRow.toElig] using hrr)
        simp [TorrentRow.toElig, not_lt.mpr this]
    have htime' : ¬ (r.toElig.seedingTime < rt) := by
      simp only [TorrentRow.toElig]
      exact not_lt.mpr htime
    have hseed' : r.toElig.isSeeding = false := by simpa [TorrentRow.toElig] using hseed
    simp [checkTorrentEligibility, if_neg hty', hrt', hratio', htime', hseed']
  refine ⟨hcheck, ?_⟩
  have hne : linkedTorrents torrents mid ≠ [] := by
    intro h
    rw [h] at hmem
    exact absurd hmem (List.not_mem_nil r)
  obtain ⟨st, hok, hiff, -⟩ :=
    checkEligibility_all_torrents_must_pass items torrents mid item hfind hne
  refine ⟨st, hok, ?_⟩
  rcases hb : st.isEligible with _ | _
  · rfl
  · exfalso
    have := hiff.mp hb (r.toElig) (List.mem_map_of_mem TorrentRow.toElig hmem)
    rw [hcheck] at this
    exact Bool.false_ne_true this

/-- C5 witness: the met-thresholds-but-not-seeding torrent of the examples. -/
theorem private_not_seeding_not_eligible_witness :
    ([exMovieRow].find? (fun m => m.id == 1) = some exMovieRow) ∧
    (exNotSeedingTorrent ∈ linkedTorrents [exNotSeedingTorrent] 1) ∧
    checkTorrentEligibility exNotSeedingTorrent.toElig =
      (false, "Torrent is not currently seeding") ∧
    ∃ st, CheckEligibility [exMovieRow] [exNotSeedingTorrent] 1 = .ok st ∧
      st.isEligible = false :=
  ⟨by decide, by decide,
    private_not_seeding_not_eligible [exMovieRow] [exNotSeedingTorrent] 1
      exMovieRow exNotSeedingTorrent 3600 (by decide) (by decide) (by decide) (by decide)
      (by decide) (by intro rr h; simp only [exNotSeedingTorrent] at h; injection h with h; rw [← h]; decide)
      (by decide)⟩

/-! ### C6 — zero linked torrents: not eligible, specific reason, no error -/

/-- C6: `CheckEligibility` on an existing media item with zero linked
torrents returns success (no error) with eligibility `false` and the
no-torrents reason. -/
theorem checkEligibility_no_torrents
    (items : List MediaRow) (torrents : List TorrentRow) (mid : Int) (item : MediaRow)
    (hfind : items.find? (fun m => m.id == mid) = some item)
    (hempty : linkedTorrents torrents mid = []) :
    CheckEligibility items torrents mid =
      .ok { isEligible := false, reason := "No torrents found for this media item" } := by
  unfold CheckEligibility
  rw [hfind, hempty]
  rfl

/-- C6 witness: a store whose only torrent is linked to a different item. -/
theorem checkEligibility_no_torrents_witness :
    ([exMovieRow].find? (fun m => m.id == 1) = some exMovieRow) ∧
    (linkedTorrents [{ exPrivateNoReqTorrent with mediaItemID := some 2 }] 1 = []) ∧
    CheckEligibility [exMovieRow] [{ exPrivateNoReqTorrent with mediaItemID := some 2 }] 1 =
      .ok { isEligible := false, reason := "No torrents found for this media item" } :=
  ⟨by decide, by decide,
    checkEligibility_no_torrents [exMovieRow]
      [{ exPrivateNoReqTorrent with mediaItemID := some 2 }] 1 exMovieRow
      (by decide) (by decide)⟩

/-! ### C10 — public tracker with met overrides never consults is_seeding -/

/-- C10: on a public tracker the per-torrent check never reads `is_seeding`;
with at least one override present and every present override threshold met,
the torrent is eligible with the public-tracker reason even when it is not
seeding. -/
theorem public_override_ignores_is_seeding (t : EligTorrent)
    (hty : t.trackerType = some "public")
    (hov : t.requiredTime.isSome || t.requiredRatio.isSome)
    (hrt : ∀ rt, t.requiredTime = some rt → rt ≤ t.seedingTime)
    (hrr : ∀ rr, t.requiredRatio = some rr → rr ≤ t.ratio) :
    (∀ b b', checkTorrentEligibility { t with isSeeding := b } =
      checkTorrentEligibility { t with isSeeding := b' }) ∧
    checkTorrentEligibility { t with isSeeding := false } =
      (true, "Public tracker - eligible") := by
  have htime : ∀ b, timeShortfall { t with isSeeding := b } = none := by
    intro b
    rw [timeShortfall]
    cases h : t.requiredTime with
    | none => rfl
    | some rt => simp [not_lt.mpr (hrt rt h)]
  have hratio : ∀ b, ratioShortfall { t with isSeeding := b } = none := by
    intro b
    rw [ratioShortfall]
    cases h : t.requiredRatio with
    | none => rfl
    | some rr => simp [not_lt.mpr (hrr rr h)]
  constructor
  · intro b b'
    rw [checkTorrentEligibility, checkTorrentEligibility,
      if_pos (show ({ t with isSeeding := b } : EligTorrent).trackerType = some "public" from hty),
      if_pos (show ({ t with isSeeding := b' } : EligTorrent).trackerType = some "public" from hty)]
    simp only [htime, hratio]
  · rw [checkTorrentEligibility,
      if_pos (show ({ t with isSeeding := false } : EligTorrent).trackerType = some "public" from hty)]
    simp only [htime, hratio]
    simp [hov]

/-- C10 witness: a public-tracker torrent with a met time override, not
seeding. -/
theorem public_override_ignores_is_seeding_witness :
    (({ exNotSeedingTorrent.toElig with
        trackerType := some "public", requiredRatio := none } : EligTorrent).trackerType
      = some "public") ∧
    checkTorrentEligibility
      { { exNotSeedingTorrent.toElig with
          trackerType := some "public", requiredRatio := none } with isSeeding := false } =
      (true, "Public tracker - eligible") :=
  ⟨by decide,
    (public_override_ignores_is_seeding
      { exNotSeedingTorrent.toElig with trackerType := some "public", requiredRatio := none }
      (by decide) (by decide)
      (by intro rt h; simp only [exNotSeedingTorrent, TorrentRow.toElig] at h; injection h with h; rw [← h]; decide)
      (by intro rr h; simp at h)).2⟩

/-! ## Deletion orchestrator (`DeletionService.DeleteMediaItem`, services/deletion.go) -/

/-- A request-manager request, as consumed by the deletion flow. -/
structure OverseerrRequest where
  id : Int
deriving DecidableEq, Repr

/-- Outcomes of the external calls `DeleteMediaItem` makes: `none` is
success, `some msg` a failure carrying the error message.  The `*Enabled`
flags are the nil-checks on the optional integration clients. -/
structure DeletionEnv where
  sonarrEnabled : Bool
  radarrEnabled : Bool
  overseerrEnabled : Bool
  qbittorrentEnabled : Bool
  deleteFilesOutcome : String → Option String
  sonarrDeleteSeries : Int → Option String
  sonarrUnmonitorSeries : Int → Option String
  radarrDeleteMovie : Int → Option String
  radarrUnmonitorMovie : Int → Option String
  findRequestByMediaID : Option Int → Option Int → String → Except String (Option OverseerrRequest)
  overseerrDeleteRequest : Int → Option String
  qbDeleteTorrent : String → Option String

/-- Step 2: filesystem-deletion failures (`deleteFiles` runs only when a
non-empty file path is recorded). -/
def fsStepErrors (env : DeletionEnv) (item : MediaRow) : List String :=
  match item.filePath with
  | some p =>
    if p ≠ "" then
      match env.deleteFilesOutcome p with
      | some e => ["failed to delete files: " ++ e]
      | none => []
    else []
  | none => []

/-- The delete-then-unmonitor fallback of step 3: a failure is recorded only
when the hard delete and the unmonitor fallback both fail. -/
def fallbackErrors (del un : Option String) (msg : String → String) : List String :=
  match del with
  | none => []
  | some _ =>
    match un with
    | none => []
    | some e => [msg e]

/-- Step 3: media-manager failures — hard delete, then unmonitor as a
fallback; only the failure of both is recorded. -/
def mmStepErrors (env : DeletionEnv) (item : MediaRow) : List String :=
  if item.type == "series" && item.sonarrID.isSome && env.sonarrEnabled then
    match item.sonarrID with
    | some sid =>
      fallbackErrors (env.sonarrDeleteSeries sid) (env.sonarrUnmonitorSeries sid)
        (fun e => "failed to delete/unmonitor from Sonarr: " ++ e)
    | none => []
  else if item.type == "movie" && item.radarrID.isSome && env.radarrEnabled then
    match item.radarrID with
    | some rid =>
      fallbackErrors (env.radarrDeleteMovie rid) (env.radarrUnmonitorMovie rid)
        (fun e => "failed to delete/unmonitor from Radarr: " ++ e)
    | none => []
  else []

/-- A stored id passed on only when valid and positive
(`tmdbID.Valid && tmdbID.Int64 > 0`). -/
def positiveID (v : Option Int) : Option Int :=
  match v with
  | some n => if n > 0 then some n else none
  | none => none

/-- Step 4's request id: the stored request-manager id when present,
otherwise the id discovered by matching the item's external ids against
current requests; `0` when none is available (a find failure or no match
leaves it `0`, which is not recorded as a step failure). -/
def resolvedRequestID (env : DeletionEnv) (item : MediaRow) : Int :=
  match item.overseerrRequestID with
  | some rid => rid
  | none =>
    let tmdbPtr := positiveID item.tmdbID
    let tvdbPtr := positiveID item.tvdbID
    if tmdbPtr.isSome || tvdbPtr.isSome then
      match env.findRequestByMediaID tmdbPtr tvdbPtr item.type with
      | .ok (some req) => req.id
      | .ok none => 0
      | .error _ => 0
    else 0

/-- Step 4: request-manager deletion failures. -/
def rmStepErrors (env : DeletionEnv) (item : MediaRow) : List String :=
  if env.overseerrEnabled then
    let rid := resolvedRequestID env item
    if rid > 0 then
      match env.overseerrDeleteRequest rid with
      | some e => ["failed to delete from Overseerr: " ++ e]
      | none => []
    else []
  else []

/-- The hashes of the torrents linked to the item (step 5's query). -/
def linkedHashes (st : Store) (mediaID : Int) : List String :=
  (linkedTorrents st.torrents mediaID).map (·.hash)

/-- Step 5: torrent-client deletion failures, one per failing hash, in table
order. -/
def tcStepErrors (env : DeletionEnv) (hashes : List String) : List String :=
  if env.qbittorrentEnabled then
    hashes.filterMap fun h =>
      (env.qbDeleteTorrent h).map fun e => "failed to delete torrent " ++ h ++ ": " ++ e
  else []

/-- The result of `DeleteMediaItem`: the Go `error` return. -/
inductive DeleteOutcome
  | notFound (mediaID : Int)
  | ok
  | completedWithErrors (errs : List String)
deriving DecidableEq, Repr

/-- `DeleteMediaItem`: load the item (a missing row aborts with nothing
done); delete files, the media-manager entry, the request-manager request,
and the linked torrents, each step recording failures without stopping;
insert one audit row whose details include the collected failures; delete
the local row (cascading linked torrents and nulling audit references, per
the schema); return success only when no step failed. -/
def DeleteMediaItem (env : DeletionEnv) (st : Store) (mediaID userID : Int) :
    Store × DeleteOutcome :=
  match st.mediaItems.find? (fun m => m.id == mediaID) with
  | none => (st, .notFound mediaID)
  | some item =>
    let errs := fsStepErrors env item ++ mmStepErrors env item ++
      rmStepErrors env item ++ tcStepErrors env (linkedHashes st mediaID)
    let details := "Deleted media: " ++ item.title ++ " (type: " ++ item.type ++ ")" ++
      (if errs.isEmpty then "" else " - Errors: " ++ toString errs)
    let audit : AuditRow :=
      { userID := userID, action := "delete", mediaItemID := some mediaID
        mediaTitle := item.title, mediaType := item.type, details := details }
    let stNew : Store :=
      { st with
        mediaItems := st.mediaItems.filter fun m => !(m.id == mediaID)
        torrents := st.torrents.filter fun t => !(t.mediaItemID == some mediaID)
        auditLogs := (st.auditLogs ++ [audit]).map fun a =>
          if a.mediaItemID == some mediaID then { a with mediaItemID := none } else a }
    (stNew, if errs.isEmpty then .ok else .completedWithErrors errs)

/-! ### Declarative success of each deletion step -/

/-- The filesystem step succeeded: no recorded non-empty path, or its
deletion returned no error. -/
def fsStepOkP (env : DeletionEnv) (item : MediaRow) : Prop :=
  ∀ p, item.filePath = some p → p ≠ "" → env.deleteFilesOutcome p = none

/-- The media-manager step succeeded: where applicable, the hard delete or
the unmonitor fallback went through. -/
def mmStepOkP (env : DeletionEnv) (item : MediaRow) : Prop :=
  (∀ sid, item.type = "series" → item.sonarrID = some sid → env.sonarrEnabled = true →
    env.sonarrDeleteSeries sid = none ∨ env.sonarrUnmonitorSeries sid = none) ∧
  (∀ rid, item.type = "movie" → item.radarrID = some rid → env.radarrEnabled = true →
    env.radarrDeleteMovie rid = none ∨ env.radarrUnmonitorMovie rid = none)

/-- The request-manager step succeeded: where a positive request id was
available, its deletion went through. -/
def rmStepOkP (env : DeletionEnv) (item : MediaRow) : Prop :=
  env.overseerrEnabled = true → 0 < resolvedRequestID env item →
    env.overseerrDeleteRequest (resolvedRequestID env item) = none

/-- The torrent-client step succeeded: every linked hash was deleted. -/
def tcStepOkP (env : DeletionEnv) (hashes : List String) : Prop :=
  env.qbittorrentEnabled = true → ∀ h ∈ hashes, env.qbDeleteTorrent h = none

theorem fsStepErrors_eq_nil (env : DeletionEnv) (item : MediaRow) :
    fsStepErrors env item = [] ↔ fsStepOkP env item := by
  rw [fsStepErrors, fsStepOkP]
  cases hp : item.filePath with
  | none => simp
  | some p =>
    by_cases hne : p = ""
    · simp [hne]
    · cases hout : env.deleteFilesOutcome p with
      | none => simp [hne, hout]
      | some e =>
        simp only [hne, if_pos (by simpa using hne)]
        constructor
        · intro h
          simp [hout] at h
        · intro h
          exact absurd (h p rfl hne) (by simp [hout])

theorem fallbackErrors_eq_nil (del un : Option String) (msg : String → String) :
    fallbackErrors del un msg = [] ↔ (del = none ∨ un = none) := by
  rcases del with _ | d <;> rcases un with _ | u <;> simp [fallbackErrors]

theorem mmStepErrors_eq_nil (env : DeletionEnv) (item : MediaRow) :
    mmStepErrors env item = [] ↔ mmStepOkP env item := by
  rw [mmStepErrors, mmStepOkP]
  by_cases hs : item.type == "series" && item.sonarrID.isSome && env.sonarrEnabled
  · rw [if_pos hs]
    simp only [Bool.and_eq_true, beq_iff_eq] at hs
    obtain ⟨⟨hty, hsidsome⟩, hen⟩ := hs
    obtain ⟨sid, hsid⟩ := Option.isSome_iff_exists.mp hsidsome
    rw [hsid, fallbackErrors_eq_nil]
    constructor
    · intro h
      constructor
      · intro sid' _ hsid' _
        injection hsid' with e
        rw [← e]
        exact h
      · intro rid hty' _ _
        rw [hty] at hty'
        exact absurd hty' (by decide)
    · rintro ⟨h, -⟩
      exact h sid hty rfl hen
  · rw [if_neg hs]
    have hsvac : ∀ sid, item.type = "series" → item.sonarrID = some sid →
        env.sonarrEnabled = true →
        env.sonarrDeleteSeries sid = none ∨ env.sonarrUnmonitorSeries sid = none :=
      fun _ hty hsid hen => absurd (by simp [hty, hsid, hen]) hs
    by_cases hm : item.type == "movie" && item.radarrID.isSome && env.radarrEnabled
    · rw [if_pos hm]
      simp only [Bool.and_eq_true, beq_iff_eq] at hm
      obtain ⟨⟨hty, hridsome⟩, hen⟩ := hm
      obtain ⟨rid, hrid⟩ := Option.isSome_iff_exists.mp hridsome
      rw [hrid, fallbackErrors_eq_nil]
      constructor
      · intro h
        refine ⟨hsvac, ?_⟩
        intro rid' _ hrid' _
        injection hrid' with e
        rw [← e]
        exact h
      · rintro ⟨-, h⟩
        exact h rid hty rfl hen
    · rw [if_neg hm]
      have hmvac : ∀ rid, item.type = "movie" → item.radarrID = some rid →
          env.radarrEnabled = true →
          env.radarrDeleteMovie rid = none ∨ env.radarrUnmonitorMovie rid = none :=
        fun _ hty hrid hen => absurd (by simp [hty, hrid, hen]) hm
      exact iff_of_true rfl ⟨hsvac, hmvac⟩

theorem rmStepErrors_eq_nil (env : DeletionEnv) (item : MediaRow) :
    rmStepErrors env item = [] ↔ rmStepOkP env item := by
  rw [rmStepErrors, rmStepOkP]
  by_cases hen : env.overseerrEnabled
  · rw [if_pos hen]
    by_cases hrid : resolvedRequestID env item > 0
    · rw [if_pos hrid]
      cases hout : env.overseerrDeleteRequest (resolvedRequestID env item) with
      | none => simp [hout]
      | some e =>
        constructor
        · intro h
          simp at h
        · intro h
          exact absurd (h hen hrid) (by simp [hout])
    · rw [if_neg hrid]
      exact iff_of_true rfl (fun _ h => absurd h hrid)
  · rw [if_neg hen]
    exact iff_of_true rfl (fun h => absurd h (by simpa using hen))

theorem tcStepErrors_eq_nil (env : DeletionEnv) (hashes : List String) :
    tcStepErrors env hashes = [] ↔ tcStepOkP env hashes := by
  rw [tcStepErrors, tcStepOkP]
  by_cases hen : env.qbittorrentEnabled
  · rw [if_pos hen]
    rw [List.filterMap_eq_nil_iff]
    constructor
    · intro h _ hh hmem
      have := h hh hmem
      cases hout : env.qbDeleteTorrent hh with
      | none => rfl
      | some e => exact absurd this (by simp [hout])
    · intro h hh hmem
      rw [h hen hh hmem]
      rfl
  · rw [if_neg hen]
    exact ⟨fun _ h => absurd h (by simpa using hen), fun _ => rfl⟩

/-! ### C1 — the deletion contract -/

/-- C1: when the media item exists, `DeleteMediaItem` removes its row and
inserts exactly one audit row whatever the four external steps did; it
returns success precisely when the filesystem, media-manager,
request-manager, and torrent-client steps all succeeded, and otherwise an
aggregate error listing every partial failure. -/
theorem deleteMediaItem_contract (env : DeletionEnv) (st : Store) (mediaID userID : Int)
    (item : MediaRow)
    (hfind : st.mediaItems.find? (fun m => m.id == mediaID) = some item) :
    (∀ m ∈ (DeleteMediaItem env st mediaID userID).1.mediaItems, m.id ≠ mediaID) ∧
    (DeleteMediaItem env st mediaID userID).1.auditLogs.length = st.auditLogs.length + 1 ∧
    ((DeleteMediaItem env st mediaID userID).2 = .ok ↔
      (fsStepOkP env item ∧ mmStepOkP env item ∧ rmStepOkP env item ∧
        tcStepOkP env (linkedHashes st mediaID))) ∧
    ((DeleteMediaItem env st mediaID userID).2 ≠ .ok →
      (DeleteMediaItem env st mediaID userID).2 = .completedWithErrors
        (fsStepErrors env item ++ mmStepErrors env item ++
          rmStepErrors env item ++ tcStepErrors env (linkedHashes st mediaID)) ∧
      fsStepErrors env item ++ mmStepErrors env item ++
        rmStepErrors env item ++ tcStepErrors env (linkedHashes st mediaID) ≠ []) := by
  simp only [DeleteMediaItem, hfind]
  refine ⟨?_, ?_, ?_, ?_⟩
  · intro m hm
    have := (List.mem_filter.mp hm).2
    simpa using this
  · simp
  · constructor
    · intro h
      by_cases hnil : (fsStepErrors env item ++ mmStepErrors env item ++
          rmStepErrors env item ++ tcStepErrors env (linkedHashes st mediaID)).isEmpty
      · have hnil' := List.isEmpty_iff.mp hnil
        simp only [List.append_eq_nil] at hnil'
        obtain ⟨⟨⟨h1, h2⟩, h3⟩, h4⟩ := hnil'
        exact ⟨(fsStepErrors_eq_nil env item).mp h1,
          (mmStepErrors_eq_nil env item).mp h2,
          (rmStepErrors_eq_nil env item).mp h3,
          (tcStepErrors_eq_nil env (linkedHashes st mediaID)).mp h4⟩
      · rw [if_neg hnil] at h
        exact absurd h (by simp)
    · intro ⟨h1, h2, h3, h4⟩
      have hnil : (fsStepErrors env item ++ mmStepErrors env item ++
          rmStepErrors env item ++ tcStepErrors env (linkedHashes st mediaID)) = [] := by
        rw [(fsStepErrors_eq_nil env item).mpr h1,
          (mmStepErrors_eq_nil env item).mpr h2,
          (rmStepErrors_eq_nil env item).mpr h3,
          (tcStepErrors_eq_nil env (linkedHashes st mediaID)).mpr h4]
        rfl
      simp only [hnil]
      rfl
  · intro h
    by_cases hnil : (fsStepErrors env item ++ mmStepErrors env item ++
        rmStepErrors env item ++ tcStepErrors env (linkedHashes st mediaID)).isEmpty
    · rw [if_pos hnil] at h
      exact absurd rfl h
    · rw [if_neg hnil]
      exact ⟨rfl, by simpa [List.isEmpty_iff] using hnil⟩

/-- An environment for the C1 witness: the media-manager delete/unmonitor
and the torrent-client delete fail; everything else succeeds. -/
def exDeletionEnv : DeletionEnv :=
  { sonarrEnabled := false, radarrEnabled := true, overseerrEnabled := false
    qbittorrentEnabled := true
    deleteFilesOutcome := fun _ => none
    sonarrDeleteSeries := fun _ => none, sonarrUnmonitorSeries := fun _ => none
    radarrDeleteMovie := fun _ => some "radarr down"
    radarrUnmonitorMovie := fun _ => some "radarr down"
    findRequestByMediaID := fun _ _ _ => .ok none
    overseerrDeleteRequest := fun _ => none
    qbDeleteTorrent := fun _ => some "qb down" }

/-- A store for the C1 witness: the example movie with one linked torrent. -/
def exDeletionStore : Store :=
  { mediaItems := [exMovieRow], torrents := [exPrivateNoReqTorrent], auditLogs := []
    nextMediaID := 2 }

/-- C1 witness: media-manager and torrent-client steps fail, yet the row is
gone and exactly one audit row is added. -/
theorem deleteMediaItem_contract_witness :
    (exDeletionStore.mediaItems.find? (fun m => m.id == 1) = some exMovieRow) ∧
    (∀ m ∈ (DeleteMediaItem exDeletionEnv exDeletionStore 1 3).1.mediaItems, m.id ≠ 1) ∧
    (DeleteMediaItem exDeletionEnv exDeletionStore 1 3).1.auditLogs.length =
      exDeletionStore.auditLogs.length + 1 := by
  have h := deleteMediaItem_contract exDeletionEnv exDeletionStore 1 3 exMovieRow (by decide)
  exact ⟨by decide, h.1, h.2.1⟩

/-! ## Media sync engine (`MediaSyncService.SyncFromSonarr` / `SyncFromRadarr`) -/

/-- The nested statistics sub-object of a remote series/movie. -/
structure RemoteStatistics where
  sizeOnDisk : Int
deriving DecidableEq, Repr

/-- A series as returned by the media-manager-A adapter (`SonarrSeries`). -/
structure SonarrSeries where
  id : Int
  title : String
  path : String
  tvdbID : Int
  added : String
  statistics : Option RemoteStatistics
deriving DecidableEq, Repr

/-- A movie as returned by the media-manager-B adapter (`RadarrMovie`). -/
structure RadarrMovie where
  id : Int
  title : String
  path : String
  tmdbID : Int
  added : String
  statistics : Option RemoteStatistics
deriving DecidableEq, Repr

/-- The on-disk size of a remote record: from the nested statistics when
present, else zero. -/
def statsSize (stats : Option RemoteStatistics) : Int :=
  match stats with
  | some s => s.sizeOnDisk
  | none => 0

/-- SQL `UPDATE media_items SET ... WHERE <p>`: rewrite every matching row
in place. -/
def updateWhere (p : MediaRow → Bool) (f : MediaRow → MediaRow)
    (rows : List MediaRow) : List MediaRow :=
  rows.map fun m => if p m then f m else m

/-- The fields a sync pass writes on an existing row: title, path, size, and
the last-synced timestamp — nothing else. -/
def applySyncFields (title path : String) (size : Int) (now : Time) (m : MediaRow) : MediaRow :=
  { m with title := title, filePath := some path, fileSize := some size
           lastSyncedAt := some now }

/-- The row `SyncFromSonarr` inserts for an unseen series: the `INSERT`
value list of the Go code, with the added date the parsed timestamp — or the
zero time when parsing fails, Go's discarded `time.Parse` error. -/
def sonarrNewRow (parseTime : String → Option Time) (now : Time)
    (ser : SonarrSeries) (st : Store) : MediaRow :=
  { id := st.nextMediaID, title := ser.title, type := "series"
    tmdbID := none, tvdbID := some ser.tvdbID
    sonarrID := some ser.id, radarrID := none
    overseerrRequestID := none, requestedByUserID := none
    filePath := some ser.path, fileSize := some (statsSize ser.statistics)
    addedDate := some ((parseTime ser.added).getD timeZero), lastSyncedAt := some now }

/-- One iteration of `SyncFromSonarr`: look the series up by its manager id;
update the existing row in place, or insert a fresh row. -/
def syncOneSonarr (parseTime : String → Option Time) (now : Time)
    (ser : SonarrSeries) (st : Store) : Store :=
  match st.mediaItems.find? (fun m => m.sonarrID == some ser.id) with
  | some ex =>
    { st with
      mediaItems := updateWhere (fun m => m.id == ex.id)
        (applySyncFields ser.title ser.path (statsSize ser.statistics) now) st.mediaItems }
  | none =>
    { st with
      mediaItems := st.mediaItems ++ [sonarrNewRow parseTime now ser st]
      nextMediaID := st.nextMediaID + 1 }

theorem syncOneSonarr_update_eq (parseTime : String → Option Time) (now : Time)
    (ser : SonarrSeries) (st : Store) (ex : MediaRow)
    (hfind : st.mediaItems.find? (fun m => m.sonarrID == some ser.id) = some ex) :
    syncOneSonarr parseTime now ser st =
      { st with
        mediaItems := updateWhere (fun m => m.id == ex.id)
          (applySyncFields ser.title ser.path (statsSize ser.statistics) now)
          st.mediaItems } := by
  unfold syncOneSonarr
  rw [hfind]

theorem syncOneSonarr_insert_eq (parseTime : String → Option Time) (now : Time)
    (ser : SonarrSeries) (st : Store)
    (hfind : st.mediaItems.find? (fun m => m.sonarrID == some ser.id) = none) :
    syncOneSonarr parseTime now ser st =
      { st with
        mediaItems := st.mediaItems ++ [sonarrNewRow parseTime now ser st]
        nextMediaID := st.nextMediaID + 1 } := by
  unfold syncOneSonarr
  rw [hfind]

/-- `SyncFromSonarr` over a fetched series list: upsert each in order. -/
def SyncFromSonarr (parseTime : String → Option Time) (now : Time)
    (series : List SonarrSeries) (st : Store) : Store :=
  series.foldl (fun s ser => syncOneSonarr parseTime now ser s) st

/-- The row `SyncFromRadarr` inserts for an unseen movie. -/
def radarrNewRow (parseTime : String → Option Time) (now : Time)
    (movie : RadarrMovie) (st : Store) : MediaRow :=
  { id := st.nextMediaID, title := movie.title, type := "movie"
    tmdbID := some movie.tmdbID, tvdbID := none
    sonarrID := none, radarrID := some movie.id
    overseerrRequestID := none, requestedByUserID := none
    filePath := some movie.path, fileSize := some (statsSize movie.statistics)
    addedDate := some ((parseTime movie.added).getD timeZero), lastSyncedAt := some now }

/-- One iteration of `SyncFromRadarr`: as for series, keyed by the
manager-B id. -/
def syncOneRadarr (parseTime : String → Option Time) (now : Time)
    (movie : RadarrMovie) (st : Store) : Store :=
  match st.mediaItems.find? (fun m => m.radarrID == some movie.id) with
  | some ex =>
    { st with
      mediaItems := updateWhere (fun m => m.id == ex.id)
        (applySyncFields movie.title movie.path (statsSize movie.statistics) now) st.mediaItems }
  | none =>
    { st with
      mediaItems := st.mediaItems ++ [radarrNewRow parseTime now movie st]
      nextMediaID := st.nextMediaID + 1 }

/-- `SyncFromRadarr` over a fetched movie list: upsert each in order. -/
def SyncFromRadarr (parseTime : String → Option Time) (now : Time)
    (movies : List RadarrMovie) (st : Store) : Store :=
  movies.foldl (fun s movie => syncOneRadarr parseTime now movie s) st

/-! ### Frame facts: what a sync pass never touches -/

/-- Everything a sync update leaves alone: identity, type, all external ids,
the request linkage, the owning user, and the added date. -/
def frameEq (m m' : MediaRow) : Prop :=
  m'.id = m.id ∧ m'.type = m.type ∧ m'.tmdbID = m.tmdbID ∧ m'.tvdbID = m.tvdbID ∧
  m'.sonarrID = m.sonarrID ∧ m'.radarrID = m.radarrID ∧
  m'.overseerrRequestID = m.overseerrRequestID ∧
  m'.requestedByUserID = m.requestedByUserID ∧ m'.addedDate = m.addedDate

theorem frameEq_refl (m : MediaRow) : frameEq m m :=
  ⟨rfl, rfl, rfl, rfl, rfl, rfl, rfl, rfl, rfl⟩

theorem frameEq_trans {a b c : MediaRow} (h1 : frameEq a b) (h2 : frameEq b c) :
    frameEq a c := by
  obtain ⟨e1, e2, e3, e4, e5, e6, e7, e8, e9⟩ := h1
  obtain ⟨f1, f2, f3, f4, f5, f6, f7, f8, f9⟩ := h2
  exact ⟨f1.trans e1, f2.trans e2, f3.trans e3, f4.trans e4, f5.trans e5,
    f6.trans e6, f7.trans e7, f8.trans e8, f9.trans e9⟩

theorem frameEq_applySyncFields (title path : String) (size : Int) (now : Time)
    (m : MediaRow) : frameEq m (applySyncFields title path size now m) :=
  ⟨rfl, rfl, rfl, rfl, rfl, rfl, rfl, rfl, rfl⟩

theorem syncOneSonarr_frame (parseTime : String → Option Time) (now : Time)
    (ser : SonarrSeries) (st : Store) (m : MediaRow) (hm : m ∈ st.mediaItems) :
    ∃ m' ∈ (syncOneSonarr parseTime now ser st).mediaItems, frameEq m m' := by
  unfold syncOneSonarr
  cases hfind : st.mediaItems.find? (fun m => m.sonarrID == some ser.id) with
  | some ex =>
    refine ⟨if m.id == ex.id then
        applySyncFields ser.title ser.path (statsSize ser.statistics) now m else m, ?_, ?_⟩
    · exact List.mem_map_of_mem _ hm
    · by_cases h : m.id == ex.id
      · rw [if_pos h]
        exact frameEq_applySyncFields _ _ _ _ m
      · rw [if_neg h]
        exact frameEq_refl m
  | none =>
    exact ⟨m, List.mem_append_left _ hm, frameEq_refl m⟩

theorem syncOneRadarr_frame (parseTime : String → Option Time) (now : Time)
    (movie : RadarrMovie) (st : Store) (m : MediaRow) (hm : m ∈ st.mediaItems) :
    ∃ m' ∈ (syncOneRadarr parseTime now movie st).mediaItems, frameEq m m' := by
  unfold syncOneRadarr
  cases hfind : st.mediaItems.find? (fun m => m.radarrID == some movie.id) with
  | some ex =>
    refine ⟨if m.id == ex.id then
        applySyncFields movie.title movie.path (statsSize movie.statistics) now m else m, ?_, ?_⟩
    · exact List.mem_map_of_mem _ hm
    · by_cases h : m.id == ex.id
      · rw [if_pos h]
        exact frameEq_applySyncFields _ _ _ _ m
      · rw [if_neg h]
        exact frameEq_refl m
  | none =>
    exact ⟨m, List.mem_append_left _ hm, frameEq_refl m⟩

theorem syncFromSonarr_frame (parseTime : String → Option Time) (now : Time)
    (series : List SonarrSeries) (st : Store) (m : MediaRow) (hm : m ∈ st.mediaItems) :
    ∃ m' ∈ (SyncFromSonarr parseTime now series st).mediaItems, frameEq m m' := by
  induction series generalizing st m with
  | nil => exact ⟨m, hm, frameEq_refl m⟩
  | cons a rest ih =>
    obtain ⟨m₁, hm₁, hf₁⟩ := syncOneSonarr_frame parseTime now a st m hm
    obtain ⟨m', hm', hf'⟩ := ih (syncOneSonarr parseTime now a st) m₁ hm₁
    exact ⟨m', hm', frameEq_trans hf₁ hf'⟩

theorem syncFromRadarr_frame (parseTime : String → Option Time) (now : Time)
    (movies : List RadarrMovie) (st : Store) (m : MediaRow) (hm : m ∈ st.mediaItems) :
    ∃ m' ∈ (SyncFromRadarr parseTime now movies st).mediaItems, frameEq m m' := by
  induction movies generalizing st m with
  | nil => exact ⟨m, hm, frameEq_refl m⟩
  | cons a rest ih =>
    obtain ⟨m₁, hm₁, hf₁⟩ := syncOneRadarr_frame parseTime now a st m hm
    obtain ⟨m', hm', hf'⟩ := ih (syncOneRadarr parseTime now a st) m₁ hm₁
    exact ⟨m', hm', frameEq_trans hf₁ hf'⟩

/-! ### C8 — sync updates preserve request-manager and owning-user linkage -/

/-- C8: any row with a request-manager id and an owning user keeps a
counterpart after a `SyncFromSonarr` or `SyncFromRadarr` pass whose only
changed fields are title, path, size, and last-synced: in particular, the
request-manager id and owning user are unchanged. -/
theorem sync_preserves_request_linkage (parseTime : String → Option Time) (now : Time)
    (series : List SonarrSeries) (movies : List RadarrMovie) (st : Store)
    (m : MediaRow) (rid uid : Int)
    (hm : m ∈ st.mediaItems)
    (hrid : m.overseerrRequestID = some rid)
    (huid : m.requestedByUserID = some uid) :
    (∃ m' ∈ (SyncFromSonarr parseTime now series st).mediaItems,
      frameEq m m' ∧ m'.overseerrRequestID = some rid ∧ m'.requestedByUserID = some uid) ∧
    (∃ m' ∈ (SyncFromRadarr parseTime now movies st).mediaItems,
      frameEq m m' ∧ m'.overseerrRequestID = some rid ∧ m'.requestedByUserID = some uid) := by
  constructor
  · obtain ⟨m', hm', hf⟩ := syncFromSonarr_frame parseTime now series st m hm
    exact ⟨m', hm', hf, hf.2.2.2.2.2.2.1.trans hrid, hf.2.2.2.2.2.2.2.1.trans huid⟩
  · obtain ⟨m', hm', hf⟩ := syncFromRadarr_frame parseTime now movies st m hm
    exact ⟨m', hm', hf, hf.2.2.2.2.2.2.1.trans hrid, hf.2.2.2.2.2.2.2.1.trans huid⟩

/-- A series for witnesses, keyed to the example movie store by nothing —
fresh manager id 11. -/
def exSeries : SonarrSeries :=
  { id := 11, title := "Example Show", path := "/data/tv/Example Show"
    tvdbID := 77, added := "2023-01-02T03:04:05Z", statistics := some { sizeOnDisk := 4096 } }

/-- A movie record for witnesses, carrying the example movie row's manager id. -/
def exRadarrMovie : RadarrMovie :=
  { id := 7, title := "Example Movie", path := "/data/movies/Example"
    tmdbID := 42, added := "not-a-timestamp", statistics := some { sizeOnDisk := 1000 } }

/-- C8 witness: the example movie row keeps its request linkage through a
Sonarr pass and a Radarr pass. -/
theorem sync_preserves_request_linkage_witness :
    (exMovieRow ∈ exDeletionStore.mediaItems) ∧
    (exMovieRow.overseerrRequestID = some 9) ∧
    (exMovieRow.requestedByUserID = some 3) ∧
    ((∃ m' ∈ (SyncFromSonarr (fun _ => none) 8 [exSeries] exDeletionStore).mediaItems,
      frameEq exMovieRow m' ∧ m'.overseerrRequestID = some 9 ∧
        m'.requestedByUserID = some 3) ∧
    (∃ m' ∈ (SyncFromRadarr (fun _ => none) 8 [exRadarrMovie] exDeletionStore).mediaItems,
      frameEq exMovieRow m' ∧ m'.overseerrRequestID = some 9 ∧
        m'.requestedByUserID = some 3)) :=
  ⟨by decide, by decide, by decide,
    sync_preserves_request_linkage (fun _ => none) 8 [exSeries] [exRadarrMovie]
      exDeletionStore exMovieRow 9 3 (by decide) (by decide) (by decide)⟩

/-! ### List plumbing for the upsert proofs -/

theorem find?_map_comm {α : Type} (g : α → α) (p : α → Bool) (l : List α)
    (h : ∀ x, p (g x) = p x) : (l.map g).find? p = (l.find? p).map g := by
  induction l with
  | nil => rfl
  | cons x xs ih =>
    simp only [List.map_cons, List.find?_cons, h x]
    cases hp : p x
    · simpa [hp] using ih
    · rfl

theorem updateWhere_eq_self (p : MediaRow → Bool) (f : MediaRow → MediaRow)
    (l : List MediaRow) (h : ∀ m ∈ l, p m = true → f m = m) :
    updateWhere p f l = l := by
  induction l with
  | nil => rfl
  | cons x xs ih =>
    show (if p x = true then f x else x) :: updateWhere p f xs = x :: xs
    have hx : (if p x = true then f x else x) = x := by
      by_cases hp : p x
      · rw [if_pos hp]
        exact h x (List.mem_cons_self x xs) hp
      · rw [if_neg hp]
    rw [hx, ih fun m hm hp => h m (List.mem_cons_of_mem x hm) hp]

theorem updateWhere_map_id (p : MediaRow → Bool) (f : MediaRow → MediaRow)
    (l : List MediaRow) (h : ∀ m, (f m).id = m.id) :
    (updateWhere p f l).map (fun m => m.id) = l.map (fun m => m.id) := by
  unfold updateWhere
  rw [List.map_map]
  apply List.map_congr_left
  intro m _
  by_cases hp : p m
  · simp [hp, h m]
  · simp [hp]

/-! ### Store invariants the database enforces -/

/-- Database well-formedness: primary keys are unique and lie below the
serial counter. -/
def StoreWF (st : Store) : Prop :=
  (st.mediaItems.map fun m => m.id).Nodup ∧ ∀ m ∈ st.mediaItems, m.id < st.nextMediaID

/-- No two rows keyed by the same manager-A id (the partial unique index on
`sonarr_id`). -/
def SonarrKeyUnique (st : Store) : Prop :=
  (st.mediaItems.filterMap fun m => m.sonarrID).Nodup

theorem syncOneSonarr_wf (parseTime : String → Option Time) (now : Time)
    (ser : SonarrSeries) (st : Store) (hwf : StoreWF st) :
    StoreWF (syncOneSonarr parseTime now ser st) := by
  obtain ⟨hnd, hlt⟩ := hwf
  cases hfind : st.mediaItems.find? (fun m => m.sonarrID == some ser.id) with
  | some ex =>
    rw [syncOneSonarr_update_eq parseTime now ser st ex hfind]
    constructor
    · show ((updateWhere _ _ st.mediaItems).map fun m => m.id).Nodup
      rw [updateWhere_map_id _
        (applySyncFields ser.title ser.path (statsSize ser.statistics) now) _ (fun m => rfl)]
      exact hnd
    · intro m hm
      obtain ⟨m₀, hm₀, hm₀eq⟩ := List.mem_map.mp hm
      have hid : m.id = m₀.id := by
        rw [← hm₀eq]
        by_cases hp : (m₀.id == ex.id) <;> simp [hp, applySyncFields]
      show m.id < st.nextMediaID
      rw [hid]
      exact hlt m₀ hm₀
  | none =>
    rw [syncOneSonarr_insert_eq parseTime now ser st hfind]
    constructor
    · show ((st.mediaItems ++ [sonarrNewRow parseTime now ser st]).map fun m => m.id).Nodup
      rw [List.map_append]
      refine List.Nodup.append hnd (by simp) ?_
      intro v hv hv2
      simp only [List.map_cons, List.map_nil, List.mem_singleton] at hv2
      subst hv2
      obtain ⟨m, hm, hid⟩ := List.mem_map.mp hv
      exact absurd hid (hlt m hm).ne
    · intro m hm
      show m.id < st.nextMediaID + 1
      rcases List.mem_append.mp hm with hold | hnewm
      · exact (hlt m hold).trans (by omega)
      · simp only [List.mem_singleton] at hnewm
        subst hnewm
        show st.nextMediaID < st.nextMediaID + 1
        omega

theorem filterMap_sonarr_updateWhere (p : MediaRow → Bool) (f : MediaRow → MediaRow)
    (l : List MediaRow) (h : ∀ m, (f m).sonarrID = m.sonarrID) :
    (updateWhere p f l).filterMap (fun m => m.sonarrID) =
      l.filterMap (fun m => m.sonarrID) := by
  induction l with
  | nil => rfl
  | cons x xs ih =>
    show ((if p x = true then f x else x) :: updateWhere p f xs).filterMap _ = _
    rw [List.filterMap_cons, List.filterMap_cons, ih]
    have hx : (if p x = true then f x else x).sonarrID = x.sonarrID := by
      by_cases hp : p x
      · rw [if_pos hp, h x]
      · rw [if_neg hp]
    rw [hx]

theorem syncOneSonarr_keyUnique (parseTime : String → Option Time) (now : Time)
    (ser : SonarrSeries) (st : Store) (hk : SonarrKeyUnique st) :
    SonarrKeyUnique (syncOneSonarr parseTime now ser st) := by
  unfold SonarrKeyUnique at *
  cases hfind : st.mediaItems.find? (fun m => m.sonarrID == some ser.id) with
  | some ex =>
    rw [syncOneSonarr_update_eq parseTime now ser st ex hfind]
    show ((updateWhere _ _ st.mediaItems).filterMap fun m => m.sonarrID).Nodup
    rw [filterMap_sonarr_updateWhere _
      (applySyncFields ser.title ser.path (statsSize ser.statistics) now) _ (fun m => rfl)]
    exact hk
  | none =>
    rw [syncOneSonarr_insert_eq parseTime now ser st hfind]
    show ((st.mediaItems ++ [sonarrNewRow parseTime now ser st]).filterMap
      fun m => m.sonarrID).Nodup
    rw [List.filterMap_append]
    refine List.Nodup.append hk (by simp [sonarrNewRow]) ?_
    intro v hv hv2
    simp [sonarrNewRow] at hv2
    subst hv2
    obtain ⟨m, hm, hms⟩ := List.mem_filterMap.mp hv
    have := List.find?_eq_none.mp hfind m hm
    simp [hms] at this

/-! ### One pass leaves every remote record's row in its target shape -/

/-- The target shape of a series' row after a pass at time `now`: its first
keyed row carries the pass's title, path, size, and timestamp. -/
def sonarrRowSynced (now : Time) (ser : SonarrSeries) (st : Store) : Prop :=
  ∃ ex, st.mediaItems.find? (fun m => m.sonarrID == some ser.id) = some ex ∧
    ex.title = ser.title ∧ ex.filePath = some ser.path ∧
    ex.fileSize = some (statsSize ser.statistics) ∧ ex.lastSyncedAt = some now

theorem applySyncFields_of_fields (title path : String) (size : Int) (now : Time)
    (m : MediaRow) (h1 : m.title = title) (h2 : m.filePath = some path)
    (h3 : m.fileSize = some size) (h4 : m.lastSyncedAt = some now) :
    applySyncFields title path size now m = m := by
  cases m
  simp_all [applySyncFields]

theorem syncOneSonarr_fixed (parseTime : String → Option Time) (now : Time)
    (ser : SonarrSeries) (st : Store)
    (hwf : StoreWF st) (hgood : sonarrRowSynced now ser st) :
    syncOneSonarr parseTime now ser st = st := by
  obtain ⟨ex, hfind, h1, h2, h3, h4⟩ := hgood
  rw [syncOneSonarr_update_eq parseTime now ser st ex hfind]
  have hexmem : ex ∈ st.mediaItems := List.mem_of_find?_eq_some hfind
  have hupd : updateWhere (fun m => m.id == ex.id)
      (applySyncFields ser.title ser.path (statsSize ser.statistics) now) st.mediaItems
      = st.mediaItems := by
    apply updateWhere_eq_self
    intro m hm hp
    have hmid : m.id = ex.id := by simpa using hp
    have : m = ex := List.inj_on_of_nodup_map hwf.1 hm hexmem hmid
    rw [this]
    exact applySyncFields_of_fields _ _ _ _ ex h1 h2 h3 h4
  rw [hupd]

theorem syncOneSonarr_establishes (parseTime : String → Option Time) (now : Time)
    (ser : SonarrSeries) (st : Store) :
    sonarrRowSynced now ser (syncOneSonarr parseTime now ser st) := by
  cases hfind : st.mediaItems.find? (fun m => m.sonarrID == some ser.id) with
  | some ex =>
    rw [syncOneSonarr_update_eq parseTime now ser st ex hfind]
    refine ⟨applySyncFields ser.title ser.path (statsSize ser.statistics) now ex,
      ?_, rfl, rfl, rfl, rfl⟩
    show (updateWhere (fun m => m.id == ex.id)
        (applySyncFields ser.title ser.path (statsSize ser.statistics) now)
        st.mediaItems).find? (fun m => m.sonarrID == some ser.id) = _
    unfold updateWhere
    rw [find?_map_comm _ _ _ ?hq, hfind]
    · simp
    case hq =>
      intro x
      by_cases h : (x.id == ex.id) <;> simp [h, applySyncFields]
  | none =>
    rw [syncOneSonarr_insert_eq parseTime now ser st hfind]
    refine ⟨sonarrNewRow parseTime now ser st, ?_, rfl, rfl, rfl, rfl⟩
    show (st.mediaItems ++ [sonarrNewRow parseTime now ser st]).find?
      (fun m => m.sonarrID == some ser.id) = _
    rw [List.find?_append, hfind]
    simp [sonarrNewRow]

theorem syncOneSonarr_preserves_other (parseTime : String → Option Time) (now : Time)
    (a b : SonarrSeries) (st : Store)
    (hwf : StoreWF st) (hne : b.id ≠ a.id) (hgood : sonarrRowSynced now a st) :
    sonarrRowSynced now a (syncOneSonarr parseTime now b st) := by
  obtain ⟨ex, hfind, h1, h2, h3, h4⟩ := hgood
  cases hfb : st.mediaItems.find? (fun m => m.sonarrID == some b.id) with
  | some exb =>
    rw [syncOneSonarr_update_eq parseTime now b st exb hfb]
    refine ⟨ex, ?_, h1, h2, h3, h4⟩
    show (updateWhere (fun m => m.id == exb.id)
        (applySyncFields b.title b.path (statsSize b.statistics) now)
        st.mediaItems).find? (fun m => m.sonarrID == some a.id) = some ex
    unfold updateWhere
    rw [find?_map_comm _ _ _ ?hq, hfind]
    · have hexa : ex ∈ st.mediaItems := List.mem_of_find?_eq_some hfind
      have hexb : exb ∈ st.mediaItems := List.mem_of_find?_eq_some hfb
      have hsa := List.find?_some hfind
      have hsb := List.find?_some hfb
      simp only [beq_iff_eq] at hsa hsb
      have hxy : ex ≠ exb := by
        intro hEq
        rw [hEq] at hsa
        rw [hsa] at hsb
        injection hsb with hsb
        exact hne hsb.symm
      have hidne : ¬ (ex.id == exb.id) = true := by
        intro hid
        exact hxy (List.inj_on_of_nodup_map hwf.1 hexa hexb (by simpa using hid))
      show Option.map (fun m => if (m.id == exb.id) = true then
        applySyncFields b.title b.path (statsSize b.statistics) now m else m) (some ex) = some ex
      rw [Option.map_some', if_neg hidne]
    case hq =>
      intro x
      by_cases h : (x.id == exb.id) <;> simp [h, applySyncFields]
  | none =>
    rw [syncOneSonarr_insert_eq parseTime now b st hfb]
    refine ⟨ex, ?_, h1, h2, h3, h4⟩
    show (st.mediaItems ++ [sonarrNewRow parseTime now b st]).find?
      (fun m => m.sonarrID == some a.id) = some ex
    rw [List.find?_append, hfind]
    rfl

theorem syncFromSonarr_wf (parseTime : String → Option Time) (now : Time)
    (series : List SonarrSeries) (st : Store) (hwf : StoreWF st) :
    StoreWF (SyncFromSonarr parseTime now series st) := by
  induction series generalizing st with
  | nil => exact hwf
  | cons a rest ih => exact ih _ (syncOneSonarr_wf parseTime now a st hwf)

theorem syncFromSonarr_keyUnique_fold (parseTime : String → Option Time) (now : Time)
    (series : List SonarrSeries) (st : Store) (hk : SonarrKeyUnique st) :
    SonarrKeyUnique (SyncFromSonarr parseTime now series st) := by
  induction series generalizing st with
  | nil => exact hk
  | cons a rest ih => exact ih _ (syncOneSonarr_keyUnique parseTime now a st hk)

theorem syncFromSonarr_preserves_other (parseTime : String → Option Time) (now : Time)
    (a : SonarrSeries) (others : List SonarrSeries) (st : Store)
    (hwf : StoreWF st) (hne : ∀ b ∈ others, b.id ≠ a.id)
    (hgood : sonarrRowSynced now a st) :
    sonarrRowSynced now a (SyncFromSonarr parseTime now others st) := by
  induction others generalizing st with
  | nil => exact hgood
  | cons b rest ih =>
    exact ih (syncOneSonarr parseTime now b st)
      (syncOneSonarr_wf parseTime now b st hwf)
      (fun c hc => hne c (List.mem_cons_of_mem b hc))
      (syncOneSonarr_preserves_other parseTime now a b st hwf
        (hne b (List.mem_cons_self b rest)) hgood)

theorem syncFromSonarr_all_synced (parseTime : String → Option Time) (now : Time)
    (series : List SonarrSeries) (st : Store) (hwf : StoreWF st)
    (hids : (series.map fun s => s.id).Nodup) :
    ∀ ser ∈ series, sonarrRowSynced now ser (SyncFromSonarr parseTime now series st) := by
  induction series generalizing st with
  | nil => exact fun ser h => absurd h (List.not_mem_nil ser)
  | cons a rest ih =>
    intro ser hser
    rw [List.map_cons] at hids
    have hwf' := syncOneSonarr_wf parseTime now a st hwf
    rcases List.mem_cons.mp hser with rfl | hser'
    · refine syncFromSonarr_preserves_other parseTime now ser rest _ hwf' ?_
        (syncOneSonarr_establishes parseTime now ser st)
      intro b hb hEq
      exact (List.nodup_cons.mp hids).1 (hEq ▸ List.mem_map_of_mem (fun s => s.id) hb)
    · exact ih (syncOneSonarr parseTime now a st) hwf' (List.nodup_cons.mp hids).2 ser hser'

theorem syncFromSonarr_id_of_synced (parseTime : String → Option Time) (now : Time)
    (series : List SonarrSeries) (s : Store) (hwf : StoreWF s)
    (hall : ∀ ser ∈ series, sonarrRowSynced now ser s) :
    SyncFromSonarr parseTime now series s = s := by
  induction series with
  | nil => rfl
  | cons a rest ih =>
    have hfix := syncOneSonarr_fixed parseTime now a s hwf (hall a (by simp))
    show SyncFromSonarr parseTime now rest (syncOneSonarr parseTime now a s) = s
    rw [hfix]
    exact ih fun ser h => hall ser (by simp [h])

/-! ### C7 — a second sync pass over the same remote list is a no-op -/

/-- C7: with unique primary keys, unique manager keys, and a remote list
with distinct ids, running `SyncFromSonarr` twice leaves exactly the state
of the first run (same rows, same fields), and the first run never creates
two rows with the same manager id. -/
theorem syncFromSonarr_idempotent (parseTime : String → Option Time) (now : Time)
    (series : List SonarrSeries) (st : Store)
    (hwf : StoreWF st) (hk : SonarrKeyUnique st)
    (hids : (series.map fun s => s.id).Nodup) :
    SyncFromSonarr parseTime now series (SyncFromSonarr parseTime now series st) =
      SyncFromSonarr parseTime now series st ∧
    SonarrKeyUnique (SyncFromSonarr parseTime now series st) := by
  refine ⟨?_, syncFromSonarr_keyUnique_fold parseTime now series st hk⟩
  exact syncFromSonarr_id_of_synced parseTime now series _
    (syncFromSonarr_wf parseTime now series st hwf)
    (syncFromSonarr_all_synced parseTime now series st hwf hids)

/-- C7 witness: one fresh series over the one-row example store. -/
theorem syncFromSonarr_idempotent_witness :
    StoreWF exDeletionStore ∧ SonarrKeyUnique exDeletionStore ∧
    (([exSeries].map fun s => s.id).Nodup) ∧
    (SyncFromSonarr (fun _ => none) 8 [exSeries]
        (SyncFromSonarr (fun _ => none) 8 [exSeries] exDeletionStore) =
      SyncFromSonarr (fun _ => none) 8 [exSeries] exDeletionStore ∧
    SonarrKeyUnique (SyncFromSonarr (fun _ => none) 8 [exSeries] exDeletionStore)) :=
  ⟨by unfold StoreWF; decide, by unfold SonarrKeyUnique; decide, by decide,
    syncFromSonarr_idempotent (fun _ => none) 8 [exSeries] exDeletionStore
      (by unfold StoreWF; decide) (by unfold SonarrKeyUnique; decide) (by decide)⟩

/-! ### C9 — malformed timestamps: tolerated, but stored as the zero time -/

/-- An empty store. -/
def exEmptyStore : Store :=
  { mediaItems := [], torrents := [], auditLogs := [], nextMediaID := 1 }

/-- A remote series whose added timestamp does not parse. -/
def exBadSeries : SonarrSeries :=
  { id := 21, title := "Bad Timestamp Show", path := "/data/tv/Bad"
    tvdbID := 88, added := "not-a-timestamp", statistics := none }

/-- A remote movie whose added timestamp does not parse. -/
def exBadMovie : RadarrMovie :=
  { id := 22, title := "Bad Timestamp Movie", path := "/data/movies/Bad"
    tmdbID := 99, added := "still-not-a-timestamp", statistics := none }

/-- C9 counterexample: syncing a record whose timestamp fails to parse
stores the zero time as the added date — the stored added date is *not*
null. -/
theorem sync_bad_timestamp_counterexample :
    ((SyncFromSonarr (fun _ => none) 7 [exBadSeries] exEmptyStore).mediaItems.map
        fun m => m.addedDate) = [some timeZero] ∧
    ((SyncFromSonarr (fun _ => none) 7 [exBadSeries] exEmptyStore).mediaItems.map
        fun m => m.addedDate) ≠ [none] := by
  constructor <;> decide

theorem syncOneRadarr_update_eq (parseTime : String → Option Time) (now : Time)
    (movie : RadarrMovie) (st : Store) (ex : MediaRow)
    (hfind : st.mediaItems.find? (fun m => m.radarrID == some movie.id) = some ex) :
    syncOneRadarr parseTime now movie st =
      { st with
        mediaItems := updateWhere (fun m => m.id == ex.id)
          (applySyncFields movie.title movie.path (statsSize movie.statistics) now)
          st.mediaItems } := by
  unfold syncOneRadarr
  rw [hfind]

theorem syncOneRadarr_insert_eq (parseTime : String → Option Time) (now : Time)
    (movie : RadarrMovie) (st : Store)
    (hfind : st.mediaItems.find? (fun m => m.radarrID == some movie.id) = none) :
    syncOneRadarr parseTime now movie st =
      { st with
        mediaItems := st.mediaItems ++ [radarrNewRow parseTime now movie st]
        nextMediaID := st.nextMediaID + 1 } := by
  unfold syncOneRadarr
  rw [hfind]

/-- A series unseen by the store whose added timestamp fails to parse is
inserted by `SyncFromSonarr` with the zero time as its added date. -/
theorem syncFromSonarr_inserts_zero_added (parseTime : String → Option Time) (now : Time)
    (series : List SonarrSeries) (st : Store) (ser : SonarrSeries)
    (hser : ser ∈ series)
    (hbad : parseTime ser.added = none)
    (hids : (series.map fun s => s.id).Nodup)
    (hnew : st.mediaItems.find? (fun m => m.sonarrID == some ser.id) = none) :
    ∃ m' ∈ (SyncFromSonarr parseTime now series st).mediaItems,
      m'.sonarrID = some ser.id ∧ m'.addedDate = some timeZero := by
  induction series generalizing st with
  | nil => exact absurd hser (List.not_mem_nil ser)
  | cons a rest ih =>
    rw [List.map_cons] at hids
    show ∃ m' ∈ (SyncFromSonarr parseTime now rest
      (syncOneSonarr parseTime now a st)).mediaItems, _
    rcases List.mem_cons.mp hser with rfl | hser'
    · -- the head is the malformed record: it is inserted with the zero time
      rw [syncOneSonarr_insert_eq parseTime now ser st hnew]
      have hrow : sonarrNewRow parseTime now ser st ∈
          ({ st with
            mediaItems := st.mediaItems ++ [sonarrNewRow parseTime now ser st]
            nextMediaID := st.nextMediaID + 1 } : Store).mediaItems :=
        List.mem_append_right _ (List.mem_singleton.mpr rfl)
      obtain ⟨m', hm', hf⟩ := syncFromSonarr_frame parseTime now rest _ _ hrow
      refine ⟨m', hm', ?_, ?_⟩
      · rw [hf.2.2.2.2.1]
        rfl
      · rw [hf.2.2.2.2.2.2.2.2]
        show some ((parseTime ser.added).getD timeZero) = some timeZero
        rw [hbad]
        rfl
    · -- the head is another record: the malformed one is still unseen
      have hne : a.id ≠ ser.id := by
        intro hEq
        exact (List.nodup_cons.mp hids).1 (hEq ▸ List.mem_map_of_mem (fun s => s.id) hser')
      have hnew' : (syncOneSonarr parseTime now a st).mediaItems.find?
          (fun m => m.sonarrID == some ser.id) = none := by
        cases hfa : st.mediaItems.find? (fun m => m.sonarrID == some a.id) with
        | some exa =>
          rw [syncOneSonarr_update_eq parseTime now a st exa hfa]
          show ((updateWhere (fun m => m.id == exa.id)
            (applySyncFields a.title a.path (statsSize a.statistics) now)
            st.mediaItems).find? fun m => m.sonarrID == some ser.id) = none
          unfold updateWhere
          rw [find?_map_comm _ _ _ ?hq, hnew]
          · rfl
          case hq =>
            intro x
            by_cases h : (x.id == exa.id) <;> simp [h, applySyncFields]
        | none =>
          rw [syncOneSonarr_insert_eq parseTime now a st hfa]
          show ((st.mediaItems ++ [sonarrNewRow parseTime now a st]).find?
            fun m => m.sonarrID == some ser.id) = none
          rw [List.find?_append, hnew]
          simp [sonarrNewRow, hne]
      exact ih (syncOneSonarr parseTime now a st) hser' (List.nodup_cons.mp hids).2 hnew'

/-- A movie unseen by the store whose added timestamp fails to parse is
inserted by `SyncFromRadarr` with the zero time as its added date. -/
theorem syncFromRadarr_inserts_zero_added (parseTime : String → Option Time) (now : Time)
    (movies : List RadarrMovie) (st : Store) (movie : RadarrMovie)
    (hmovie : movie ∈ movies)
    (hbad : parseTime movie.added = none)
    (hids : (movies.map fun s => s.id).Nodup)
    (hnew : st.mediaItems.find? (fun m => m.radarrID == some movie.id) = none) :
    ∃ m' ∈ (SyncFromRadarr parseTime now movies st).mediaItems,
      m'.radarrID = some movie.id ∧ m'.addedDate = some timeZero := by
  induction movies generalizing st with
  | nil => exact absurd hmovie (List.not_mem_nil movie)
  | cons a rest ih =>
    rw [List.map_cons] at hids
    show ∃ m' ∈ (SyncFromRadarr parseTime now rest
      (syncOneRadarr parseTime now a st)).mediaItems, _
    rcases List.mem_cons.mp hmovie with rfl | hmovie'
    · -- the head is the malformed record: it is inserted with the zero time
      rw [syncOneRadarr_insert_eq parseTime now movie st hnew]
      have hrow : radarrNewRow parseTime now movie st ∈
          ({ st with
            mediaItems := st.mediaItems ++ [radarrNewRow parseTime now movie st]
            nextMediaID := st.nextMediaID + 1 } : Store).mediaItems :=
        List.mem_append_right _ (List.mem_singleton.mpr rfl)
      obtain ⟨m', hm', hf⟩ := syncFromRadarr_frame parseTime now rest _ _ hrow
      refine ⟨m', hm', ?_, ?_⟩
      · rw [hf.2.2.2.2.2.1]
        rfl
      · rw [hf.2.2.2.2.2.2.2.2]
        show some ((parseTime movie.added).getD timeZero) = some timeZero
        rw [hbad]
        rfl
    · -- the head is another record: the malformed one is still unseen
      have hne : a.id ≠ movie.id := by
        intro hEq
        exact (List.nodup_cons.mp hids).1 (hEq ▸ List.mem_map_of_mem (fun s => s.id) hmovie')
      have hnew' : (syncOneRadarr parseTime now a st).mediaItems.find?
          (fun m => m.radarrID == some movie.id) = none := by
        cases hfa : st.mediaItems.find? (fun m => m.radarrID == some a.id) with
        | some exa =>
          rw [syncOneRadarr_update_eq parseTime now a st exa hfa]
          show ((updateWhere (fun m => m.id == exa.id)
            (applySyncFields a.title a.path (statsSize a.statistics) now)
            st.mediaItems).find? fun m => m.radarrID == some movie.id) = none
          unfold updateWhere
          rw [find?_map_comm _ _ _ ?hq, hnew]
          · rfl
          case hq =>
            intro x
            by_cases h : (x.id == exa.id) <;> simp [h, applySyncFields]
        | none =>
          rw [syncOneRadarr_insert_eq parseTime now a st hfa]
          show ((st.mediaItems ++ [radarrNewRow parseTime now a st]).find?
            fun m => m.radarrID == some movie.id) = none
          rw [List.find?_append, hnew]
          simp [radarrNewRow, hne]
      exact ih (syncOneRadarr parseTime now a st) hmovie' (List.nodup_cons.mp hids).2 hnew'

/-- C9 (amended): a record with a malformed added timestamp is still synced
by `SyncFromSonarr`/`SyncFromRadarr` — the pass does not fail and the item's
row is present — and the parse failure never yields a null added date: a
newly inserted row stores the zero time (Go's discarded `time.Parse` error
leaves the zero `time.Time`), and an update leaves every existing row's
added date unchanged. -/
theorem sync_bad_timestamp_zero_added (parseTime : String → Option Time) (now : Time)
    (series : List SonarrSeries) (movies : List RadarrMovie) (st : Store)
    (ser : SonarrSeries) (movie : RadarrMovie)
    (hser : ser ∈ series) (hmovie : movie ∈ movies)
    (hbadS : parseTime ser.added = none) (hbadR : parseTime movie.added = none)
    (hidsS : (series.map fun s => s.id).Nodup)
    (hidsR : (movies.map fun s => s.id).Nodup)
    (hnewS : st.mediaItems.find? (fun m => m.sonarrID == some ser.id) = none)
    (hnewR : st.mediaItems.find? (fun m => m.radarrID == some movie.id) = none) :
    (∃ m' ∈ (SyncFromSonarr parseTime now series st).mediaItems,
      m'.sonarrID = some ser.id ∧ m'.addedDate = some timeZero) ∧
    (∃ m' ∈ (SyncFromRadarr parseTime now movies st).mediaItems,
      m'.radarrID = some movie.id ∧ m'.addedDate = some timeZero) ∧
    (∀ m ∈ st.mediaItems, ∃ m' ∈ (SyncFromSonarr parseTime now series st).mediaItems,
      m'.id = m.id ∧ m'.addedDate = m.addedDate) ∧
    (∀ m ∈ st.mediaItems, ∃ m' ∈ (SyncFromRadarr parseTime now movies st).mediaItems,
      m'.id = m.id ∧ m'.addedDate = m.addedDate) := by
  refine ⟨syncFromSonarr_inserts_zero_added parseTime now series st ser hser hbadS hidsS hnewS,
    syncFromRadarr_inserts_zero_added parseTime now movies st movie hmovie hbadR hidsR hnewR,
    ?_, ?_⟩
  · intro m hm
    obtain ⟨m', hm', hf⟩ := syncFromSonarr_frame parseTime now series st m hm
    exact ⟨m', hm', hf.1, hf.2.2.2.2.2.2.2.2⟩
  · intro m hm
    obtain ⟨m', hm', hf⟩ := syncFromRadarr_frame parseTime now movies st m hm
    exact ⟨m', hm', hf.1, hf.2.2.2.2.2.2.2.2⟩

/-- C9 (amended) witness: a malformed-timestamp series and movie synced
over the one-row example store, exercising both the insert conjuncts and
the update-leaves-added-date conjuncts. -/
theorem sync_bad_timestamp_zero_added_witness :
    (exBadSeries ∈ [exBadSeries]) ∧ (exBadMovie ∈ [exBadMovie]) ∧
    (exDeletionStore.mediaItems.find? (fun m => m.sonarrID == some exBadSeries.id) = none) ∧
    (exDeletionStore.mediaItems.find? (fun m => m.radarrID == some exBadMovie.id) = none) ∧
    ((∃ m' ∈ (SyncFromSonarr (fun _ => none) 7 [exBadSeries] exDeletionStore).mediaItems,
      m'.sonarrID = some exBadSeries.id ∧ m'.addedDate = some timeZero) ∧
    (∃ m' ∈ (SyncFromRadarr (fun _ => none) 7 [exBadMovie] exDeletionStore).mediaItems,
      m'.radarrID = some exBadMovie.id ∧ m'.addedDate = some timeZero) ∧
    (∀ m ∈ exDeletionStore.mediaItems,
      ∃ m' ∈ (SyncFromSonarr (fun _ => none) 7 [exBadSeries] exDeletionStore).mediaItems,
        m'.id = m.id ∧ m'.addedDate = m.addedDate) ∧
    (∀ m ∈ exDeletionStore.mediaItems,
      ∃ m' ∈ (SyncFromRadarr (fun _ => none) 7 [exBadMovie] exDeletionStore).mediaItems,
        m'.id = m.id ∧ m'.addedDate = m.addedDate)) :=
  ⟨by decide, by decide, by decide, by decide,
    sync_bad_timestamp_zero_added (fun _ => none) 7 [exBadSeries] [exBadMovie]
      exDeletionStore exBadSeries exBadMovie (by decide) (by decide) rfl rfl
      (by decide) (by decide) (by decide) (by decide)⟩

/-! ## Torrent → media matching (`SyncFromQBittorrent`, services/torrent_sync.go)

Only the per-torrent MediaItem-link resolution is modelled: the ordered
fallback of SQL queries the sync runs for each torrent.  `LIKE` with the
content path used literally and a trailing/leading `%` is a prefix or
substring test; `LIMIT 1` without `ORDER BY` is the first matching row in
table order, and with `ORDER BY` the first row of minimal key. -/

/-- SQL `s LIKE p || '%'` (pattern data used literally): `p` prefixes `s`. -/
def strStartsWith (s p : String) : Bool := p.data.isPrefixOf s.data

/-- Substring containment over character lists. -/
def listContainsSub (p : List Char) : List Char → Bool
  | [] => p.isEmpty
  | c :: rest => p.isPrefixOf (c :: rest) || listContainsSub p rest

/-- SQL `s LIKE '%' || p || '%'`: `p` occurs inside `s`. -/
def strContainsSub (s p : String) : Bool := listContainsSub p.data s.data

/-- Postgres `string_to_array(s, sep)` over characters. -/
def splitChar (sep : Char) : List Char → List (List Char)
  | [] => [[]]
  | c :: rest =>
    if c == sep then [] :: splitChar sep rest
    else
      match splitChar sep rest with
      | t :: ts => (c :: t) :: ts
      | [] => [[c]]

/-- Apply a path predicate to a row's nullable `file_path` (SQL three-valued
logic: a null path matches nothing). -/
def fpMatches (m : MediaRow) (q : String → Bool) : Bool :=
  match m.filePath with
  | some fp => q fp
  | none => false

/-- Lexicographic Bool order on sort keys. -/
def keyLe (k1 k2 : Nat × Nat) : Bool :=
  k1.1 < k2.1 || (k1.1 == k2.1 && k1.2 ≤ k2.2)

/-- `ORDER BY key LIMIT 1`: the first row of minimal key in table order. -/
def firstMinBy (key : MediaRow → Nat × Nat) : List MediaRow → Option MediaRow
  | [] => none
  | m :: rest =>
    match firstMinBy key rest with
    | none => some m
    | some m' => if keyLe (key m) (key m') then some m else some m'

/-- Strategy 4's `ORDER BY`: rows whose path starts with the content path
sort first (`CASE WHEN file_path LIKE $1 || '%' THEN 1 ELSE 2 END`), then by
path length. -/
def strat4Key (contentPath : String) (m : MediaRow) : Nat × Nat :=
  ((if strStartsWith (m.filePath.getD "") contentPath then 1 else 2),
    (m.filePath.getD "").length)

/-- The ordered path match of `SyncFromQBittorrent`: (1) exact equality,
(2) `file_path LIKE contentPath || '%'` — the content path is a prefix of
the local path, (3) `contentPath LIKE file_path || '%'` — the local path is
a prefix of the content path, (4) substring containment with the
prefix-first `CASE` then shortest path; each strategy runs only when the
previous found no row. -/
def matchByPath (items : List MediaRow) (contentPath : String) : Option Int :=
  match (items.find? fun m => m.filePath == some contentPath).map (fun m => m.id) with
  | some i => some i
  | none =>
    match (items.find? fun m => fpMatches m fun fp =>
        strStartsWith fp contentPath && fp != "").map (fun m => m.id) with
    | some i => some i
    | none =>
      match (items.find? fun m => fpMatches m fun fp =>
          strStartsWith contentPath fp && fp != "").map (fun m => m.id) with
      | some i => some i
      | none =>
        (firstMinBy (strat4Key contentPath)
          (items.filter fun m => fpMatches m fun fp =>
            strContainsSub fp contentPath && fp != "")).map (fun m => m.id)

/-- Strategy 5's token predicate:
`title = ANY(string_to_array(name, ' '))`. -/
def titleTokenMatch (nm : String) (m : MediaRow) : Bool :=
  (splitChar ' ' nm.data).contains m.title.data

/-- The name-based last resort: token match or
`name LIKE '%' || title || '%'`, token matches ordered first. -/
def matchByName (items : List MediaRow) (nm : String) : Option Int :=
  (firstMinBy (fun m => ((if titleTokenMatch nm m then 1 else 2), 0))
    (items.filter fun m => titleTokenMatch nm m || strContainsSub nm m.title)).map
    (fun m => m.id)

/-- Link resolution for one torrent: path strategies (non-empty content path
only), then the name strategy (non-empty name only). -/
def resolveMediaItemLink (items : List MediaRow) (contentPath nm : String) : Option Int :=
  match (if contentPath != "" then matchByPath items contentPath else none) with
  | some i => some i
  | none => if nm != "" then matchByName items nm else none

/-- Modelled from the claim's wording (C3): the same strategies with (2)
and (3) in the order the claim lists them — local path prefix of the
content path *before* content path prefix of the local path — and
strategy 4 ordered by shortest local path length. -/
def claimedMatchByPath (items : List MediaRow) (contentPath : String) : Option Int :=
  match (items.find? fun m => m.filePath == some contentPath).map (fun m => m.id) with
  | some i => some i
  | none =>
    match (items.find? fun m => fpMatches m fun fp =>
        strStartsWith contentPath fp && fp != "").map (fun m => m.id) with
    | some i => some i
    | none =>
      match (items.find? fun m => fpMatches m fun fp =>
          strStartsWith fp contentPath && fp != "").map (fun m => m.id) with
      | some i => some i
      | none =>
        (firstMinBy (fun m => ((m.filePath.getD "").length, 0))
          (items.filter fun m => fpMatches m fun fp =>
            strContainsSub fp contentPath && fp != "")).map (fun m => m.id)

/-- Modelled from the claim's wording (C3), full pipeline. -/
def claimedResolveMediaItemLink (items : List MediaRow) (contentPath nm : String) :
    Option Int :=
  match (if contentPath != "" then claimedMatchByPath items contentPath else none) with
  | some i => some i
  | none => if nm != "" then matchByName items nm else none

/-- The amended claim's path match: as the claim lists it but with (2) and
(3) swapped — content path prefix of local path first — and strategy 4
ordered by shortest local path length. -/
def amendedMatchByPath (items : List MediaRow) (contentPath : String) : Option Int :=
  match (items.find? fun m => m.filePath == some contentPath).map (fun m => m.id) with
  | some i => some i
  | none =>
    match (items.find? fun m => fpMatches m fun fp =>
        strStartsWith fp contentPath && fp != "").map (fun m => m.id) with
    | some i => some i
    | none =>
      match (items.find? fun m => fpMatches m fun fp =>
          strStartsWith contentPath fp && fp != "").map (fun m => m.id) with
      | some i => some i
      | none =>
        (firstMinBy (fun m => ((m.filePath.getD "").length, 0))
          (items.filter fun m => fpMatches m fun fp =>
            strContainsSub fp contentPath && fp != "")).map (fun m => m.id)

/-- The amended claim's full pipeline. -/
def amendedResolveMediaItemLink (items : List MediaRow) (contentPath nm : String) :
    Option Int :=
  match (if contentPath != "" then amendedMatchByPath items contentPath else none) with
  | some i => some i
  | none => if nm != "" then matchByName items nm else none

/-! ### C3 — the fallback order: counterexample and amended equivalence -/

/-- A row whose path extends the example torrent's content path. -/
def exPathRow1 : MediaRow :=
  { exMovieRow with
    id := 31
    title := "Longer"
    filePath := some "/ab"
    overseerrRequestID := none
    requestedByUserID := none
    radarrID := some 61
    tmdbID := none }

/-- A row whose path is a prefix of the example torrent's content path. -/
def exPathRow2 : MediaRow :=
  { exMovieRow with
    id := 32
    title := "Shorter"
    filePath := some "/"
    overseerrRequestID := none
    requestedByUserID := none
    radarrID := some 62
    tmdbID := none }

/-- C3 counterexample: with content path `/a` against rows `/ab` and `/`,
the code links `/ab` (its strategy 2: content path prefixes the local path)
while the claim's strategy order links `/` (local path prefixes the content
path), so the claimed order differs from the code. -/
theorem resolveMediaItemLink_order_counterexample :
    resolveMediaItemLink [exPathRow1, exPathRow2] "/a" "" = some 31 ∧
    claimedResolveMediaItemLink [exPathRow1, exPathRow2] "/a" "" = some 32 ∧
    resolveMediaItemLink [exPathRow1, exPathRow2] "/a" "" ≠
      claimedResolveMediaItemLink [exPathRow1, exPathRow2] "/a" "" := by
  refine ⟨?_, ?_, ?_⟩ <;> decide

theorem firstMinBy_mem (key : MediaRow → Nat × Nat) (l : List MediaRow) (m : MediaRow)
    (h : firstMinBy key l = some m) : m ∈ l := by
  induction l generalizing m with
  | nil => exact absurd h (by simp [firstMinBy])
  | cons x xs ih =>
    rw [firstMinBy] at h
    cases hx : firstMinBy key xs with
    | none =>
      rw [hx] at h
      replace h : some x = some m := h
      injection h with h
      exact h ▸ List.mem_cons_self x xs
    | some m' =>
      rw [hx] at h
      replace h : (if keyLe (key x) (key m') = true then some x else some m') = some m := h
      by_cases hle : keyLe (key x) (key m')
      · rw [if_pos hle] at h
        injection h with h
        exact h ▸ List.mem_cons_self x xs
      · rw [if_neg hle] at h
        injection h with h
        exact h ▸ List.mem_cons_of_mem x (ih m' hx)

theorem firstMinBy_congr (k1 k2 : MediaRow → Nat × Nat) (l : List MediaRow)
    (h : ∀ x ∈ l, ∀ y ∈ l, keyLe (k1 x) (k1 y) = keyLe (k2 x) (k2 y)) :
    firstMinBy k1 l = firstMinBy k2 l := by
  induction l with
  | nil => rfl
  | cons x xs ih =>
    have ih' := ih fun a ha b hb =>
      h a (List.mem_cons_of_mem x ha) b (List.mem_cons_of_mem x hb)
    rw [firstMinBy, firstMinBy, ih']
    cases hm : firstMinBy k2 xs with
    | none => rfl
    | some m' =>
      have hmem : m' ∈ xs := firstMinBy_mem k2 xs m' hm
      show (if keyLe (k1 x) (k1 m') = true then some x else some m') =
        (if keyLe (k2 x) (k2 m') = true then some x else some m')
      rw [h x (List.mem_cons_self x xs) m' (List.mem_cons_of_mem x hmem)]

theorem keyLe_const_fst (a b : Nat) : keyLe (2, a) (2, b) = keyLe (a, 0) (b, 0) := by
  unfold keyLe
  by_cases hab : a < b
  · simp [hab, Nat.le_of_lt hab]
  · by_cases heq : a = b
    · simp [heq]
    · have h1 : ¬ a ≤ b := by omega
      simp [hab, heq, h1]

theorem matchByPath_eq_amended (items : List MediaRow) (cp : String) :
    matchByPath items cp = amendedMatchByPath items cp := by
  unfold matchByPath amendedMatchByPath
  cases h1 : (items.find? fun m => m.filePath == some cp).map (fun m => m.id) with
  | some i => rfl
  | none =>
    cases h2 : (items.find? fun m => fpMatches m fun fp =>
        strStartsWith fp cp && fp != "").map (fun m => m.id) with
    | some i => rfl
    | none =>
      cases h3 : (items.find? fun m => fpMatches m fun fp =>
          strStartsWith cp fp && fp != "").map (fun m => m.id) with
      | some i => rfl
      | none =>
        show (firstMinBy (strat4Key cp) _).map (fun m => m.id) =
          (firstMinBy (fun m => ((m.filePath.getD "").length, 0)) _).map (fun m => m.id)
        rw [firstMinBy_congr]
        intro x hx y hy
        have hkey : ∀ z ∈ items.filter fun m => fpMatches m fun fp =>
            strContainsSub fp cp && fp != "",
            strat4Key cp z = (2, (z.filePath.getD "").length) := by
          intro z hz
          obtain ⟨hzmem, hzq⟩ := List.mem_filter.mp hz
          have hznp : ¬ (fpMatches z fun fp => strStartsWith fp cp && fp != "") = true := by
            have := Option.map_eq_none.mp h2
            exact List.find?_eq_none.mp this z hzmem
          cases hfp : z.filePath with
          | none => simp [fpMatches, hfp] at hzq
          | some fp =>
            simp only [fpMatches, hfp] at hzq hznp
            have hzq' := hzq
            rw [Bool.and_eq_true] at hzq'
            have hfpne : (fp != "") = true := hzq'.2
            have hnsw : strStartsWith fp cp = false := by
              cases hsw : strStartsWith fp cp with
              | false => rfl
              | true => exact absurd (by rw [hsw, hfpne]; rfl) hznp
            unfold strat4Key
            rw [hfp]
            show ((if strStartsWith fp cp = true then 1 else 2 : Nat), fp.length) = _
            rw [hnsw]
            simp
        rw [hkey x hx, hkey y hy, keyLe_const_fst]

/-- C3 (amended): the resolution equals the claim's pipeline with
strategies (2) and (3) swapped — (1) exact path equality, (2) the torrent's
content path is a prefix of the local path, (3) the local path is a prefix
of the content path, (4) substring containment ordered by shortest local
path length, (5) token overlap with the title — first hit wins. -/
theorem resolveMediaItemLink_eq_amended (items : List MediaRow) (cp nm : String) :
    resolveMediaItemLink items cp nm = amendedResolveMediaItemLink items cp nm := by
  unfold resolveMediaItemLink amendedResolveMediaItemLink
  rw [matchByPath_eq_amended]

end Removarr
